import Mathlib

/-!
Shallow embedding of the pm-team orchestration / plan-mutation core.

Sources embedded (Python):
  src/src/pm_team/sprint_planner.py        (SprintPlanner.plan, refine_for_blocker)
  src/src/pm_team/orchestration.py         (EventBus, AuditLogger mirror handlers,
                                            MetricsAccumulator, PMTeamOrchestrator.run)
  src/src/pm_team/plan_ops.py              (load_plan, save_plan, add_blocker_task,
                                            reprioritize_tasks)
  src/src/pm_team/output_writer.py         (_prune_old_runs, persist_run)
  src/src/pm_team/projects.py              (ensure_project, increment_run_counter)
  src/src/pm_team/conversation.py          (load_conversation, append_messages)
  src/autogen_pm_team/pm_team/release_coordinator.py (ReleaseCoordinator.draft_release)

Modelling conventions:
  * Python dicts holding the fixed field sets of §3 of the spec are closed
    structures here.
  * Wall-clock timestamps are abstracted: ISO timestamp strings become opaque
    `String` parameters threaded in by the caller, and calendar dates in the
    release coordinator become day counts (`Nat`), so `now + timedelta(days=3)`
    becomes `nowDay + 3`.  Calendar rendering of dates to strings is not
    modelled; no claim depends on it.
  * Python floats (risk_probability, risk_exposure, wsjf) are modelled as `ℚ`
    with exact arithmetic; no claim depends on float rounding behaviour.
  * The filesystem is modelled per component: a run directory is a record of
    its files, a project directory is its metadata file plus the list of run
    directory names.
-/

namespace PMTeam

/-- Risk levels (`"low" | "medium" | "high"` strings in the source). -/
inductive Risk
  | low
  | medium
  | high
deriving DecidableEq

/-- `risk_map = {"low": 1, "medium": 3, "high": 6}` in `sprint_planner.py`. -/
def riskWeight : Risk → Nat
  | .low => 1
  | .medium => 3
  | .high => 6

def riskName : Risk → String
  | .low => "low"
  | .medium => "medium"
  | .high => "high"

/-- One work item (task dict of `sprint_planner.py` / `plan_ops.py`).
`estimate_points`, `risk_score`, `risk_impact` and `priority` are integers in
the source; float-valued fields are `ℚ` here. -/
structure Task where
  id : String
  title : String
  type : String
  estimate_points : Nat
  risk : Risk
  risk_score : Nat
  risk_probability : ℚ
  risk_impact : Nat
  risk_exposure : ℚ
  wsjf : ℚ
  priority : Nat
  acceptance : String
  depends_on : List String
  status : Option String := none
deriving DecidableEq

instance : Inhabited Task :=
  ⟨⟨"", "", "", 0, .low, 0, 0, 0, 0, 0, 0, "", [], none⟩⟩

/-- Python's `round(x, 2)` applied to the exact rational value
(half-away rounding; the difference to float banker's rounding is irrelevant
for the values arising here and no claim touches `wsjf`). -/
def round2 (q : ℚ) : ℚ := (⌊q * 100 + 1/2⌋ : ℚ) / 100

/-- The fixed base template of `SprintPlanner.plan` (title, type). -/
def baseTaskDefs : List (String × String) :=
  [("Requirements Clarification", "analysis"),
   ("Architecture Draft", "design"),
   ("Data Model Design", "design"),
   ("Implementation", "feature"),
   ("Testing & QA", "quality"),
   ("Deployment Prep", "ops")]

/-- Loop body of `SprintPlanner.plan` for 1-based index `i` and template
entry `td` (title, type). -/
def mkBaseTask (initiative : String) (i : Nat) (td : String × String) : Task :=
  let risk : Risk := if i = 4 ∨ i = 5 then .medium else .low
  let estimate : Nat := if td.1 = "Implementation" then 8 else 3
  let prob : ℚ := if risk = .low then 1/5 else 2/5
  let impact : Nat := if risk = .low then 2 else 4
  { id := "T" ++ toString i
    title := td.1 ++ " (" ++ initiative.take 30 ++ ")"
    type := td.2
    estimate_points := estimate
    risk := risk
    risk_score := riskWeight risk * estimate
    risk_probability := prob
    risk_impact := impact
    risk_exposure := prob * impact * estimate
    wsjf := round2 ((8 + 5 + 3 : ℚ) / max estimate 1)
    priority := i
    acceptance := "TBD"
    depends_on := if 1 < i then ["T" ++ toString (i - 1)] else [] }

/-- Plan dict of `sprint_planner.py` (§3 field set). `updated_at` is written
only by `plan_ops.save_plan`. -/
structure Plan where
  initiative : String
  generated_at : String
  sprint_goal : String
  velocity_assumption : Nat
  tasks : List Task
  blockers : List String
  aggregate_risk_score : Nat
  updated_at : Option String := none
deriving DecidableEq

/-- `SprintPlanner.plan(initiative)`; `now` abstracts `now_iso()`. -/
def sprintPlan (now : String) (initiative : String) : Plan :=
  let tasks := baseTaskDefs.enum.map fun p => mkBaseTask initiative (p.1 + 1) p.2
  { initiative := initiative
    generated_at := now
    sprint_goal := "Deliver foundation for: " ++ initiative.take 60
    velocity_assumption := 30
    tasks := tasks
    blockers := []
    aggregate_risk_score := (tasks.map Task.risk_score).sum }

/-- The mitigation task appended by `SprintPlanner.refine_for_blocker`
when the plan currently has `ntasks` tasks. -/
def mitigationTask (ntasks : Nat) (blocker : String) : Task :=
  { id := "M" ++ toString (ntasks + 1)
    title := "Mitigate blocker: " ++ blocker.take 40
    type := "mitigation"
    estimate_points := 2
    risk := .high
    risk_score := 2 * 6
    risk_probability := 1/2
    risk_impact := 5
    risk_exposure := 1/2 * 5 * 2
    wsjf := round2 ((5 + 5 + 5 : ℚ) / 2)
    priority := ntasks + 1
    acceptance := "Mitigation effective"
    depends_on := [] }

/-- `SprintPlanner.refine_for_blocker(plan, blocker)`: appends one mitigation
task, records the blocker, recomputes `aggregate_risk_score` over all tasks. -/
def refineForBlocker (plan : Plan) (blocker : String) : Plan :=
  let tasks := plan.tasks ++ [mitigationTask plan.tasks.length blocker]
  { plan with
    tasks := tasks
    blockers := plan.blockers ++ [blocker]
    aggregate_risk_score := (tasks.map Task.risk_score).sum }

/-- `ReleaseCoordinator.draft_release` output
(src/autogen_pm_team/pm_team/release_coordinator.py; the revision under
src/src lacks the module but imports the identical class).  Dates are modelled
as day counts: `window` is the pair (start, end) of
`f"{start.date()} -> {(start+2 days).date()}"`, `next_milestone` the day of
`(start + 7 days).date()`. -/
structure ReleaseView where
  generated_at : String
  windowStart : Nat
  windowEnd : Nat
  next_milestone : Nat
  notes : List String
  rollback_stub : String
deriving DecidableEq

/-- `ReleaseCoordinator.draft_release(plan)`; `nowDay` abstracts
`datetime.now(UTC)` at day granularity, `nowIso` abstracts `now_iso()`. -/
def draftRelease (nowDay : Nat) (nowIso : String) (plan : Plan) : ReleaseView :=
  let start := nowDay + 3
  { generated_at := nowIso
    windowStart := start
    windowEnd := start + 2
    next_milestone := start + 7
    notes := (plan.tasks.map fun t => t.id ++ ": " ++ t.title).take 6
    rollback_stub :=
      "If critical failure: 1) Notify stakeholders 2) Revert infra changes 3) Restore DB snapshot 4) Post-mortem" }

/-- Render the day-count window as the source renders the date-range string
(calendar formatting abstracted to `toString` of the day counts). -/
def windowText (r : ReleaseView) : String :=
  toString r.windowStart ++ " -> " ++ toString r.windowEnd

/-- `StakeholderCommunicator.summarize(plan, release_summary)`. -/
def summarize (plan : Plan) (rel : ReleaseView) : String :=
  let total_points := (plan.tasks.map Task.estimate_points).sum
  let risks := plan.tasks.filter fun t => t.risk ≠ Risk.low
  let risk_line :=
    if risks.isEmpty then "None"
    else String.intercalate ", " (risks.map fun t => t.id ++ "(" ++ riskName t.risk ++ ")")
  "Initiative: " ++ plan.initiative ++ ". Total tasks: " ++ toString plan.tasks.length ++
    ", Total points: " ++ toString total_points ++ ". Planned Release Window: " ++
    windowText rel ++ " | Risks: " ++ risk_line ++ ". Next milestone: " ++
    toString rel.next_milestone

/-- Audit line payloads written by the orchestrator
(`{event, at, **data}` JSONL lines, event-specific fields as a closed sum). -/
inductive AuditData
  | planCreated (task_count : Nat)
  | blockerAdded (blocker : String)
  | releaseDrafted (window : String)
  | summaryLength (length : Nat)
  | runCompleted (initiative : String) (points : Nat)
deriving DecidableEq

/-- One audit log line `{event, at, ...}`; the source's `at` field is named
`atTime` here because `at` is reserved in Lean. -/
structure AuditEntry where
  event : String
  atTime : String
  data : AuditData
deriving DecidableEq

/-- Event payload dicts passed to `EventBus.emit` by `PMTeamOrchestrator.run`
(the four shapes actually emitted, as a closed sum). -/
inductive Payload
  | planCreated (initiative : String) (tasks : List Task)
  | blockerAdded (blocker : String)
  | release (r : ReleaseView)
  | summary (s : String)

/-- A subscriber: Python handlers here are the audit-mirroring lambdas (and
any caller-registered subscriber).  A handler either appends audit entries and
succeeds, or raises; `Except.error` models the raised exception. -/
def Handler := Payload → Except String (List AuditEntry)

/-- `EventBus`: `_subs` keeps, per event name, handlers in subscription order;
modelled as one ordered association list (filtering by name preserves
per-event subscription order).  `history` is the in-memory record list;
each record is `{event, timestamp, payload}`. -/
structure EventBus where
  subs : List (String × Handler)
  history : List (String × String × Payload)

/-- Invoke handlers in order; a raising handler stops the dispatch and the
exception propagates (`emit` does not catch handler failures).  Entries
appended by handlers that completed before the failure are kept. -/
def runHandlers : List Handler → Payload → List AuditEntry × Option String
  | [], _ => ([], none)
  | h :: hs, p =>
    match h p with
    | .error e => ([], some e)
    | .ok es =>
      let r := runHandlers hs p
      (es ++ r.1, r.2)

/-- Handlers subscribed to `ev`, in subscription order. -/
def handlersFor (bus : EventBus) (ev : String) : List Handler :=
  (bus.subs.filter fun s => s.1 == ev).map fun s => s.2

/-- `EventBus.emit(event, payload)`: appends the record to the in-memory
history, then synchronously invokes every subscribed handler in order.
Returns (bus after the history append, audit entries written by handlers,
propagated exception if a handler raised). -/
def emit (now : String) (bus : EventBus) (ev : String) (p : Payload) :
    EventBus × List AuditEntry × Option String :=
  let bus' := { bus with history := bus.history ++ [(ev, now, p)] }
  let r := runHandlers (handlersFor bus ev) p
  (bus', r.1, r.2)

/-- The four audit-mirroring subscriptions registered in
`PMTeamOrchestrator.__init__`.  On a payload missing the field the lambda
reads, Python would raise `KeyError`; modelled as an error (unreachable in
`run`, which always emits the matching payload shape). -/
def stdSubs (now : String) : List (String × Handler) :=
  [("PLAN_CREATED", fun p =>
      match p with
      | .planCreated _ ts => .ok [⟨"PLAN_CREATED", now, .planCreated ts.length⟩]
      | _ => .error "KeyError"),
   ("BLOCKER_ADDED", fun p =>
      match p with
      | .blockerAdded b => .ok [⟨"BLOCKER_ADDED", now, .blockerAdded b⟩]
      | _ => .error "KeyError"),
   ("RELEASE_DRAFTED", fun p =>
      match p with
      | .release r => .ok [⟨"RELEASE_DRAFTED", now, .releaseDrafted (windowText r)⟩]
      | _ => .error "KeyError"),
   ("STAKEHOLDER_SUMMARY", fun p =>
      match p with
      | .summary s => .ok [⟨"STAKEHOLDER_SUMMARY", now, .summaryLength s.length⟩]
      | _ => .error "KeyError")]

/-- `MetricsAccumulator.snapshot()`: the two counters `run` touches plus
`last_points` (the open counter dict is only ever used with these keys). -/
structure MetricsSnapshot where
  plans_created : Nat
  blockers_recorded : Nat
  last_points : Nat
deriving DecidableEq

/-- The aggregated result dict returned by `PMTeamOrchestrator.run`. -/
structure RunResult where
  plan : Plan
  release : ReleaseView
  stakeholder_summary : String
  metrics : MetricsSnapshot
  aggregate_risk_score : Nat
deriving DecidableEq

/-- State after a (possibly aborted) run: event bus, audit log file contents,
and the returned result or the propagated exception. -/
structure OrchOutcome where
  bus : EventBus
  audit : List AuditEntry
  result : Except String RunResult

/-- The `for b in collected_blockers` loop of `run`: refine the plan, count
the blocker, emit `BLOCKER_ADDED`.  A raising handler aborts the loop and the
exception propagates; audit entries already written remain. -/
def blockerLoop (now : String) :
    List String → Plan → EventBus → List AuditEntry →
      Plan × EventBus × List AuditEntry × Option String
  | [], plan, bus, audit => (plan, bus, audit, none)
  | b :: bs, plan, bus, audit =>
    let plan' := refineForBlocker plan b
    let e := emit now bus "BLOCKER_ADDED" (.blockerAdded b)
    match e.2.2 with
    | some err => (plan', e.1, audit ++ e.2.1, some err)
    | none => blockerLoop now bs plan' e.1 (audit ++ e.2.1)

/-- `collected_blockers` normalization at the top of `run`: a truthy single
blocker is prepended, then the list is appended (`if blocker:` skips the empty
string; `extend` keeps every list element, empty or not). -/
def collectBlockers (blocker? : Option String) (blockers : List String) : List String :=
  (match blocker? with
   | some b => if b = "" then [] else [b]
   | none => []) ++ blockers

/-- `PMTeamOrchestrator.run(initiative, blocker, blockers)`.

`audit0` is the audit log file contents before the run; `extraSubs` are
subscribers registered on the bus beyond the four standard audit mirrors
(empty for an orchestrator used as constructed).  `blockers_recorded` is
incremented once per loop iteration, so on the success path it equals
`(collectBlockers blocker? blockers).length`. -/
def runOrchestrator (nowIso : String) (nowDay : Nat) (audit0 : List AuditEntry)
    (extraSubs : List (String × Handler)) (initiative : String)
    (blocker? : Option String) (blockers : List String) : OrchOutcome :=
  let bus0 : EventBus := { subs := stdSubs nowIso ++ extraSubs, history := [] }
  let plan0 := sprintPlan nowIso initiative
  let total_points := (plan0.tasks.map Task.estimate_points).sum
  let e1 := emit nowIso bus0 "PLAN_CREATED" (.planCreated initiative plan0.tasks)
  match e1.2.2 with
  | some err => ⟨e1.1, audit0 ++ e1.2.1, .error err⟩
  | none =>
    let audit1 := audit0 ++ e1.2.1
    let collected := collectBlockers blocker? blockers
    match blockerLoop nowIso collected plan0 e1.1 audit1 with
    | (_, bus2, audit2, some err) => ⟨bus2, audit2, .error err⟩
    | (plan, bus2, audit2, none) =>
      let rel := draftRelease nowDay nowIso plan
      let e3 := emit nowIso bus2 "RELEASE_DRAFTED" (.release rel)
      match e3.2.2 with
      | some err => ⟨e3.1, audit2 ++ e3.2.1, .error err⟩
      | none =>
        let audit3 := audit2 ++ e3.2.1
        let summary := summarize plan rel
        let e4 := emit nowIso e3.1 "STAKEHOLDER_SUMMARY" (.summary summary)
        match e4.2.2 with
        | some err => ⟨e4.1, audit3 ++ e4.2.1, .error err⟩
        | none =>
          let audit4 := audit3 ++ e4.2.1 ++
            [⟨"RUN_COMPLETED", nowIso, .runCompleted initiative total_points⟩]
          ⟨e4.1, audit4,
           .ok { plan := plan
                 release := rel
                 stakeholder_summary := summary
                 metrics :=
                   { plans_created := 1
                     blockers_recorded := collected.length
                     last_points := total_points }
                 aggregate_risk_score := plan.aggregate_risk_score }⟩

/-- A run directory as seen by `plan_ops.py`: the contents of `plan.json`
(if the file exists) plus the other files (name, contents), which the plan
operations never touch.  Parse failures of an existing `plan.json` are a
separate error class (CorruptState) outside these claims; `none` means the
file is absent. -/
structure RunDir where
  planFile : Option Plan
  otherFiles : List (String × String)
deriving DecidableEq

/-- `FileNotFoundError("plan.json not found")` raised by `load_plan`. -/
inductive PlanOpsError
  | planNotFound
deriving DecidableEq

/-- `plan_ops.load_plan(run_dir)`. -/
def load_plan (d : RunDir) : Except PlanOpsError Plan :=
  match d.planFile with
  | none => .error .planNotFound
  | some p => .ok p

/-- `plan_ops.save_plan(run_dir, plan)`: stamps `updated_at`, writes the plan
back; returns the written plan and the new directory state. -/
def save_plan (now : String) (d : RunDir) (p : Plan) : Plan × RunDir :=
  let p' := { p with updated_at := some now }
  (p', { d with planFile := some p' })

/-- The mitigation task literal of `plan_ops.add_blocker_task` (numeric
fields written as literals in that revision: `risk_score = 12`,
`wsjf = 7.5`). -/
def mitigationTaskOps (ntasks : Nat) (blocker : String) : Task :=
  { id := "M" ++ toString (ntasks + 1)
    title := "Mitigate blocker: " ++ blocker.take 40
    type := "mitigation"
    estimate_points := 2
    risk := .high
    risk_score := 12
    risk_probability := 1/2
    risk_impact := 5
    risk_exposure := 1/2 * 5 * 2
    wsjf := 75/10
    priority := ntasks + 1
    acceptance := "Mitigation effective"
    depends_on := [] }

/-- `plan_ops.add_blocker_task(run_dir, blocker)`.  Returns the Python return
value (or the raised error) together with the directory state afterwards; the
`load_plan` failure is raised before anything is written, so the state is
returned unchanged in that case. -/
def add_blocker_task (now : String) (d : RunDir) (blocker : String) :
    Except PlanOpsError Plan × RunDir :=
  match load_plan d with
  | .error e => (.error e, d)
  | .ok plan =>
    let tasks := plan.tasks ++ [mitigationTaskOps plan.tasks.length blocker]
    let plan' :=
      { plan with
        tasks := tasks
        blockers := plan.blockers ++ [blocker]
        aggregate_risk_score := (tasks.map Task.risk_score).sum }
    let s := save_plan now d plan'
    (.ok s.1, s.2)

/-- `by_id = {t["id"]: t for t in tasks if t.get("id")}`: lookup keyed by
non-empty id.  A Python dict comprehension keeps the last entry for a
repeated key, hence `getLast?`. -/
def byId (ts : List Task) (tid : String) : Option Task :=
  (ts.filter fun t => t.id ≠ "" ∧ t.id = tid).getLast?

/-- The `normalized` list of `reprioritize_tasks`: requested ids filtered to
those present in `by_id`, first occurrence kept (`seen` is the set of
elements already accumulated). -/
def normalizeIds (ts : List Task) (orderedIds : List String) : List String :=
  orderedIds.foldl
    (fun acc tid => if (byId ts tid).isSome ∧ tid ∉ acc then acc ++ [tid] else acc) []

/-- The `remaining` list: ids of tasks not mentioned, in original task
order. -/
def remainingIds (ts : List Task) (orderedIds : List String) : List String :=
  (ts.filter fun t => t.id ∉ normalizeIds ts orderedIds).map Task.id

/-- The `for idx, tid in enumerate(final_order, start=1)` assignment loop:
`by_id[tid]["priority"] = idx`.  Python mutates the task dict aliased in
`by_id`, so a later assignment to the same id wins; with a duplicate-free
`final_order` (the only case arising below, and the only case in which the
Python loop cannot hit a `KeyError` on an id absent from `by_id`) this equals
updating every task whose non-empty id matches. -/
def assignLoop : List Task → Nat → List String → List Task
  | ts, _, [] => ts
  | ts, k, tid :: rest =>
    assignLoop
      (ts.map fun t => if t.id = tid ∧ t.id ≠ "" then { t with priority := k } else t)
      (k + 1) rest

/-- The in-memory core of `reprioritize_tasks`: build `final_order`, assign
priorities from 1, then `tasks.sort(key=priority)` (Python sort is stable
ascending). -/
def reprioritizePure (ts : List Task) (orderedIds : List String) : List Task :=
  let finalOrder := normalizeIds ts orderedIds ++ remainingIds ts orderedIds
  (assignLoop ts 1 finalOrder).mergeSort fun a b => decide (a.priority ≤ b.priority)

/-- `plan_ops.reprioritize_tasks(run_dir, ordered_ids)`. -/
def reprioritize_tasks (now : String) (d : RunDir) (orderedIds : List String) :
    Except PlanOpsError Plan × RunDir :=
  match load_plan d with
  | .error e => (.error e, d)
  | .ok plan =>
    let plan' := { plan with tasks := reprioritizePure plan.tasks orderedIds }
    let s := save_plan now d plan'
    (.ok s.1, s.2)

/-- `output_writer._prune_old_runs(project_path, keep)` on the set of run
directory names (the only subdirectories of a project directory; the files
`project.json` / `audit_log.jsonl` are not directories and are never
touched).  Returns the names that remain.

The source computes `excess = len(run_dirs) - keep` as a signed integer and
deletes `run_dirs[:excess]` after sorting by name: for `excess >= 0` that is
the first `excess` names, but for `excess < 0` Python's negative-index slice
is `run_dirs[:len + excess]`, i.e. the first `2*len - keep` names (clamped at
zero) — not the empty list.  Per-directory deletion failures are swallowed in
the source; deletion itself is modelled as always succeeding. -/
def pruneOldRuns (dirs : List String) (keep : Nat) : List String :=
  let sorted := dirs.mergeSort fun a b => decide (a ≤ b)
  let n := sorted.length
  let cut : Nat := if keep ≤ n then n - keep else 2 * n - keep
  sorted.drop cut

/-- `project.json` metadata (`projects.py`). -/
structure ProjMeta where
  name : String
  slug : String
  created_at : String
  runs : Nat
deriving DecidableEq

/-- The state of a `project.json` file: absent, unparsable, or parsed. -/
inductive MetaFile
  | missing
  | corrupt
  | stored (m : ProjMeta)
deriving DecidableEq

/-- `projects._slug(name)`: lowercase, whitespace to underscore, strip
non-`[a-z0-9_-]`. -/
def slug (name : String) : String :=
  let lower := (name.trim.toLower).map fun c => if c = ' ' then '_' else c
  let cleaned := String.mk (lower.toList.filter fun c =>
    (c.isLower ∨ c.isDigit ∨ c = '_' ∨ c = '-'))
  if cleaned = "" then "default" else cleaned

/-- Fresh metadata written by `ensure_project` /
`increment_run_counter`'s corrupt-file fallback. -/
def mkMeta (now : String) (name : String) : ProjMeta :=
  { name := name, slug := slug name, created_at := now, runs := 0 }

/-- `projects.ensure_project(name)` restricted to the metadata file: return
the parsed metadata if readable, otherwise (missing or unparsable) write and
return fresh metadata with `runs = 0`. -/
def ensure_project (now : String) (name : String) (f : MetaFile) : ProjMeta × MetaFile :=
  match f with
  | .stored m => (m, .stored m)
  | .missing => (mkMeta now name, .stored (mkMeta now name))
  | .corrupt => (mkMeta now name, .stored (mkMeta now name))

/-- `projects.increment_run_counter(name)`: if `project.json` is absent it
calls `ensure_project` (which writes `runs = 0`) and returns without
incrementing; if the file is unparsable it falls back to fresh metadata and
increments that; otherwise it increments the stored counter. -/
def increment_run_counter (now : String) (name : String) (f : MetaFile) : MetaFile :=
  match f with
  | .missing => (ensure_project now name f).2
  | .corrupt => .stored { mkMeta now name with runs := 0 + 1 }
  | .stored m => .stored { m with runs := m.runs + 1 }

/-- A project directory as seen by `persist_run`: the `project.json` state
and the run directory names under it. -/
structure ProjectFS where
  meta : MetaFile
  runDirs : List String
deriving DecidableEq

/-- `output_writer.persist_run` restricted to the project-level effects the
claims are about: create the run directory (name `<timestamp>_<slug>`,
supplied as `runName`; artifact and manifest writes happen inside that new
directory), then `increment_run_counter(project)`, then
`_prune_old_runs(proj_dir, max_runs)` when `max_runs` is not `None`. -/
def persist_run (now : String) (project : String) (runName : String)
    (maxRuns : Option Nat) (st : ProjectFS) : ProjectFS :=
  let st1 : ProjectFS := { st with runDirs := st.runDirs ++ [runName] }
  let st2 : ProjectFS := { st1 with meta := increment_run_counter now project st1.meta }
  match maxRuns with
  | none => st2
  | some k => { st2 with runDirs := pruneOldRuns st2.runDirs k }

/-- One conversation message `{"sender", "content", "timestamp"}`. -/
structure Msg where
  sender : String
  content : String
  timestamp : String
deriving DecidableEq

/-- An element of the stored `conversation.json` array: a well-formed message
dict, or anything else (a non-dict or a dict missing `sender`/`content`),
which `load_conversation` filters out. -/
inductive ConvEntry
  | wellFormed (m : Msg)
  | malformed
deriving DecidableEq

/-- The state of `conversation.json`: absent, unparsable JSON, or a parsed
array of entries. -/
inductive ConvFile
  | missing
  | corrupt
  | stored (entries : List ConvEntry)
deriving DecidableEq

/-- `conversation.load_conversation(run_dir)`: missing file and corrupted
JSON both yield `[]`; a parsed array is filtered to well-formed message
dicts. -/
def load_conversation (f : ConvFile) : List Msg :=
  match f with
  | .missing => []
  | .corrupt => []
  | .stored entries =>
    entries.filterMap fun e =>
      match e with
      | .wellFormed m => some m
      | .malformed => none

/-- `conversation.append_messages(run_dir, new_messages)`: load, extend, trim
to the last 500 when over, write back.  Returns the history as returned by
the function together with the file afterwards (the swallowed-write-error
path of `_write` is a filesystem failure outside these claims). -/
def append_messages (f : ConvFile) (newMessages : List Msg) :
    List Msg × ConvFile :=
  let history := load_conversation f ++ newMessages
  let history' := if 500 < history.length then history.drop (history.length - 500) else history
  (history', .stored (history'.map ConvEntry.wellFormed))

/-! Proof-support definitions (not part of the embedding). -/

/-- Fixture task for concrete witnesses. -/
def wTask (i : String) (pr : Nat) : Task :=
  { (default : Task) with id := i, priority := pr }

/-- Fixture plan for concrete witnesses. -/
def wPlan : Plan :=
  { initiative := "i"
    generated_at := "t"
    sprint_goal := "g"
    velocity_assumption := 30
    tasks := [wTask "T1" 1, wTask "T2" 2, wTask "T3" 3]
    blockers := []
    aggregate_risk_score := 0 }

/-- Fixture run directory holding `wPlan` as its `plan.json`. -/
def wDir : RunDir := ⟨some wPlan, []⟩

/-- Position of the first occurrence of `x` in `l` (length of `l` if absent). -/
def posOf : List String → String → Nat
  | [], _ => 0
  | a :: l, x => if a = x then 0 else posOf l x + 1

/-- Lookup used to state the closed form of `reprioritizePure`. -/
def theTask (ts : List Task) (tid : String) : Task :=
  (byId ts tid).getD default

/-- Closed form of `reprioritizePure` for well-formed task lists: the tasks
listed in `finalOrder`, each with priority = its 1-based position. -/
def setPrioAt (ts : List Task) (finalOrder : List String) : List Task :=
  finalOrder.map fun tid => { theTask ts tid with priority := posOf finalOrder tid + 1 }

/-- Pointwise form of one full pass of the priority-assignment loop. -/
def updWith (l : List String) (k : Nat) (t : Task) : Task :=
  if t.id ∈ l ∧ t.id ≠ "" then { t with priority := k + posOf l t.id } else t

/-- Audit entries produced by a succeeding handler (empty for a failing
one). -/
def okOut (p : Payload) (h : Handler) : List AuditEntry :=
  match h p with
  | .ok es => es
  | .error _ => []

/-- Subscriber lists none of whose handlers ever output a `RUN_COMPLETED`
audit entry (the orchestrator's standard audit mirrors are such). -/
def GoodSubs (subs : List (String × Handler)) : Prop :=
  ∀ s h, (s, h) ∈ subs → ∀ q es, h q = Except.ok es → ∀ en ∈ es, en.event ≠ "RUN_COMPLETED"

example : (sprintPlan "t" "x").tasks.length = 6 := by decide
example : (sprintPlan "t" "x").aggregate_risk_score = 45 := by decide
example : ((sprintPlan "t" "x").tasks.map Task.estimate_points).sum = 23 := by decide
example :
    (refineForBlocker (sprintPlan "t" "x") "b").aggregate_risk_score = 57 := by decide

/-! ## Theorems -/

/-- C6: on a run directory with no `plan.json`, `add_blocker_task` fails with
the NotFound-class error raised by `load_plan` and leaves every file of the
run directory unchanged. -/
theorem claim_C6_add_blocker_task_missing_plan (now : String) (d : RunDir)
    (blocker : String) (h : d.planFile = none) :
    add_blocker_task now d blocker = (Except.error PlanOpsError.planNotFound, d) := by
  simp [add_blocker_task, load_plan, h]

/-- Witness for C6 at a concrete empty run directory. -/
theorem claim_C6_witness :
    add_blocker_task "t" ⟨none, [("manifest.json", "m")]⟩ "db down" =
      (Except.error PlanOpsError.planNotFound, ⟨none, [("manifest.json", "m")]⟩) :=
  claim_C6_add_blocker_task_missing_plan "t" ⟨none, [("manifest.json", "m")]⟩ "db down" rfl

/-- C10: after any `append_messages` call the stored conversation holds the
most recent messages, at most 500 of them, in their original order (a suffix
of the extended history), older messages being silently discarded. -/
theorem claim_C10_append_messages_cap (f : ConvFile) (newMessages : List Msg) :
    (append_messages f newMessages).1 =
        (load_conversation f ++ newMessages).drop
          ((load_conversation f ++ newMessages).length - 500)
      ∧ (append_messages f newMessages).1.length ≤ 500
      ∧ (append_messages f newMessages).1 <:+ (load_conversation f ++ newMessages)
      ∧ (append_messages f newMessages).2 =
          ConvFile.stored ((append_messages f newMessages).1.map ConvEntry.wellFormed) := by
  set h := load_conversation f ++ newMessages with hh
  by_cases hlen : 500 < h.length
  · refine ⟨?_, ?_, ?_, ?_⟩
    · simp [append_messages, ← hh, hlen]
    · simp [append_messages, ← hh, hlen]
      omega
    · simp only [append_messages, ← hh, hlen, if_pos]
      exact List.drop_suffix _ _
    · simp [append_messages, ← hh, hlen]
  · have h0 : h.length - 500 = 0 := by omega
    refine ⟨?_, ?_, ?_, ?_⟩
    · simp [append_messages, ← hh, hlen, h0]
    · simp [append_messages, ← hh, hlen]
      omega
    · simp only [append_messages, ← hh, hlen, if_neg, not_false_iff]
      exact List.suffix_rfl
    · simp [append_messages, ← hh, hlen]

/-- C8 counterexample: at current day 0, `draft_release` puts
`next_milestone` 10 days out (7 days after the window start), not 7 days out
as the claim states. -/
theorem claim_C8_counterexample :
    (draftRelease 0 "t" (sprintPlan "t" "x")).next_milestone = 10 ∧ (10 : Nat) ≠ 0 + 7 := by
  constructor
  · rfl
  · decide

/-- C8 (amended): for every plan and current day, the release window starts
3 days out and spans 2 days, `next_milestone` is the date 10 days out (7 days
after the window start), and the notes are one `id: title` entry per task in
task order, truncated to at most 6. -/
theorem claim_C8_draft_release (nowDay : Nat) (nowIso : String) (plan : Plan) :
    (draftRelease nowDay nowIso plan).windowStart = nowDay + 3
      ∧ (draftRelease nowDay nowIso plan).windowEnd =
          (draftRelease nowDay nowIso plan).windowStart + 2
      ∧ (draftRelease nowDay nowIso plan).next_milestone =
          (draftRelease nowDay nowIso plan).windowStart + 7
      ∧ (draftRelease nowDay nowIso plan).next_milestone = nowDay + 10
      ∧ (draftRelease nowDay nowIso plan).notes =
          (plan.tasks.map fun t => t.id ++ ": " ++ t.title).take 6
      ∧ (draftRelease nowDay nowIso plan).notes.length ≤ 6 := by
  refine ⟨rfl, rfl, rfl, by simp [draftRelease], rfl, ?_⟩
  exact List.length_take_le 6 (plan.tasks.map fun t => t.id ++ ": " ++ t.title)

/-- C4 counterexample: the first `persist_run` of a project whose
`project.json` does not exist leaves the `runs` counter at 0
(`increment_run_counter` only calls `ensure_project` and returns), not 1 as
the claim requires. -/
theorem claim_C4_counterexample :
    (persist_run "t" "p" "r" none ⟨MetaFile.missing, []⟩).meta =
        MetaFile.stored (mkMeta "t" "p")
      ∧ (mkMeta "t" "p").runs = 0 ∧ (0 : Nat) ≠ 0 + 1 := by
  refine ⟨rfl, rfl, by decide⟩

/-- C4 (amended): a `persist_run` increments the `runs` counter by exactly 1
whenever `project.json` already exists and parses (regardless of pruning,
which never touches the metadata file); when `project.json` is absent, the
first persist initializes the counter to 0 without incrementing it. -/
theorem claim_C4_run_counter (now project runName : String) (maxRuns : Option Nat)
    (st : ProjectFS) :
    (∀ m, st.meta = MetaFile.stored m →
        (persist_run now project runName maxRuns st).meta =
          MetaFile.stored { m with runs := m.runs + 1 })
      ∧ (st.meta = MetaFile.missing →
          (persist_run now project runName maxRuns st).meta =
            MetaFile.stored (mkMeta now project)) := by
  constructor
  · intro m hm
    cases maxRuns <;> simp [persist_run, increment_run_counter, hm]
  · intro hm
    cases maxRuns <;> simp [persist_run, increment_run_counter, ensure_project, hm]

/-- Witness for C4 (amended): a concrete persist over existing metadata with
pruning enabled bumps the counter from 0 to 1. -/
theorem claim_C4_witness :
    (persist_run "t2" "p" "r" (some 2) ⟨MetaFile.stored (mkMeta "t" "p"), []⟩).meta =
      MetaFile.stored { mkMeta "t" "p" with runs := 1 } :=
  (claim_C4_run_counter "t2" "p" "r" (some 2) ⟨MetaFile.stored (mkMeta "t" "p"), []⟩).1
    (mkMeta "t" "p") rfl

/-- C3 failing input: a project holding 2 run directories persisted with
`maxRuns = 3` (count ≤ limit, so the claim says nothing is pruned), yet the
code deletes the lexicographically least directory: `run_dirs[:excess]` with
the negative `excess = -1` is Python for "all but the last", not "nothing".
-/
theorem claim_C3_prune_deletes_under_limit :
    (persist_run "t" "p" "20250102_0000_b" (some 3)
        ⟨MetaFile.stored (mkMeta "t" "p"), ["20250101_0000_a"]⟩).runDirs =
        ["20250102_0000_b"]
      ∧ pruneOldRuns ["20250101_0000_a", "20250102_0000_b"] 3 = ["20250102_0000_b"] := by
  have h1 : decide (("20250101_0000_a" : String) ≤ "20250102_0000_b") = true :=
    decide_eq_true (String.le_iff_toList_le.mpr (by decide))
  have hs : List.Pairwise (fun a b : String => decide (a ≤ b) = true)
      ["20250101_0000_a", "20250102_0000_b"] := by
    refine List.Pairwise.cons ?_ (List.pairwise_singleton _ _)
    intro b hb
    rw [List.mem_singleton] at hb
    subst hb
    exact h1
  have hp : pruneOldRuns ["20250101_0000_a", "20250102_0000_b"] 3 = ["20250102_0000_b"] := by
    unfold pruneOldRuns
    rw [List.mergeSort_of_sorted hs]
    decide
  refine ⟨?_, hp⟩
  simp only [persist_run, increment_run_counter]
  exact hp

/-! Helper lemmas for the orchestrator pipeline with only the standard
audit-mirroring subscriptions on the bus. -/

theorem emit_std_planCreated (now : String) (hist : List (String × String × Payload))
    (i : String) (ts : List Task) :
    emit now ⟨stdSubs now, hist⟩ "PLAN_CREATED" (.planCreated i ts) =
      (⟨stdSubs now, hist ++ [("PLAN_CREATED", now, .planCreated i ts)]⟩,
       [⟨"PLAN_CREATED", now, .planCreated ts.length⟩], none) := rfl

theorem emit_std_blockerAdded (now : String) (hist : List (String × String × Payload))
    (b : String) :
    emit now ⟨stdSubs now, hist⟩ "BLOCKER_ADDED" (.blockerAdded b) =
      (⟨stdSubs now, hist ++ [("BLOCKER_ADDED", now, .blockerAdded b)]⟩,
       [⟨"BLOCKER_ADDED", now, .blockerAdded b⟩], none) := rfl

theorem emit_std_release (now : String) (hist : List (String × String × Payload))
    (r : ReleaseView) :
    emit now ⟨stdSubs now, hist⟩ "RELEASE_DRAFTED" (.release r) =
      (⟨stdSubs now, hist ++ [("RELEASE_DRAFTED", now, .release r)]⟩,
       [⟨"RELEASE_DRAFTED", now, .releaseDrafted (windowText r)⟩], none) := rfl

theorem emit_std_summary (now : String) (hist : List (String × String × Payload))
    (s : String) :
    emit now ⟨stdSubs now, hist⟩ "STAKEHOLDER_SUMMARY" (.summary s) =
      (⟨stdSubs now, hist ++ [("STAKEHOLDER_SUMMARY", now, .summary s)]⟩,
       [⟨"STAKEHOLDER_SUMMARY", now, .summaryLength s.length⟩], none) := rfl

theorem blockerLoop_std (now : String) (bs : List String) (plan : Plan)
    (hist : List (String × String × Payload)) (audit : List AuditEntry) :
    blockerLoop now bs plan ⟨stdSubs now, hist⟩ audit =
      (bs.foldl refineForBlocker plan,
       ⟨stdSubs now, hist ++ bs.map fun b => ("BLOCKER_ADDED", now, Payload.blockerAdded b)⟩,
       audit ++ bs.map fun b => ⟨"BLOCKER_ADDED", now, AuditData.blockerAdded b⟩,
       none) := by
  induction bs generalizing plan hist audit with
  | nil => simp [blockerLoop]
  | cons b bs ih =>
    rw [blockerLoop, emit_std_blockerAdded]
    simp only [List.foldl_cons, List.map_cons]
    rw [ih]
    simp

theorem foldl_refine_length (bs : List String) (p : Plan) :
    (bs.foldl refineForBlocker p).tasks.length = p.tasks.length + bs.length := by
  induction bs generalizing p with
  | nil => simp
  | cons b bs ih =>
    rw [List.foldl_cons, ih]
    simp [refineForBlocker]
    omega

theorem foldl_refine_agg (bs : List String) (p : Plan)
    (h : p.aggregate_risk_score = (p.tasks.map Task.risk_score).sum) :
    (bs.foldl refineForBlocker p).aggregate_risk_score =
      ((bs.foldl refineForBlocker p).tasks.map Task.risk_score).sum := by
  induction bs generalizing p with
  | nil => exact h
  | cons b bs ih => exact ih (refineForBlocker p b) rfl

theorem sprintPlan_tasks_length (now i : String) : (sprintPlan now i).tasks.length = 6 := rfl

theorem sprintPlan_agg (now i : String) :
    (sprintPlan now i).aggregate_risk_score =
      ((sprintPlan now i).tasks.map Task.risk_score).sum := rfl

theorem collectBlockers_length (b? : Option String) (bs : List String)
    (h : b? ≠ some "") :
    (collectBlockers b? bs).length = b?.toList.length + bs.length := by
  cases b? with
  | none => simp [collectBlockers]
  | some b =>
    have hb : b ≠ "" := fun hb => h (by rw [hb])
    simp [collectBlockers, hb]
    omega

/-- Closed form of `PMTeamOrchestrator.run` when the bus carries only the
four standard subscriptions: the run succeeds, the returned plan is the base
plan refined once per collected blocker, and the metrics snapshot records one
plan, one blocker per iteration, and the base plan's total points. -/
theorem runOrch_std (nowIso : String) (nowDay : Nat) (audit0 : List AuditEntry)
    (i : String) (b? : Option String) (bs : List String) :
    (runOrchestrator nowIso nowDay audit0 [] i b? bs).result =
      Except.ok
        { plan := (collectBlockers b? bs).foldl refineForBlocker (sprintPlan nowIso i)
          release := draftRelease nowDay nowIso
            ((collectBlockers b? bs).foldl refineForBlocker (sprintPlan nowIso i))
          stakeholder_summary :=
            summarize ((collectBlockers b? bs).foldl refineForBlocker (sprintPlan nowIso i))
              (draftRelease nowDay nowIso
                ((collectBlockers b? bs).foldl refineForBlocker (sprintPlan nowIso i)))
          metrics :=
            { plans_created := 1
              blockers_recorded := (collectBlockers b? bs).length
              last_points := ((sprintPlan nowIso i).tasks.map Task.estimate_points).sum }
          aggregate_risk_score :=
            ((collectBlockers b? bs).foldl refineForBlocker (sprintPlan nowIso i)).aggregate_risk_score } := by
  simp only [runOrchestrator, List.append_nil, emit_std_planCreated]
  rw [blockerLoop_std]
  rfl

/-- C1: for every initiative, optional blocker (a truthy string — `run`
treats the empty string like an absent blocker) and blocker list, `run`
returns a result whose plan has exactly `6 + k` tasks, `k` counting the
single blocker and the list together, and whose `aggregate_risk_score` equals
the sum of `risk_score` over that plan's tasks. -/
theorem claim_C1_run_task_count_and_aggregate (nowIso : String) (nowDay : Nat)
    (audit0 : List AuditEntry) (initiative : String) (blocker? : Option String)
    (blockers : List String) (h : blocker? ≠ some "") :
    ∃ r, (runOrchestrator nowIso nowDay audit0 [] initiative blocker? blockers).result =
        Except.ok r
      ∧ r.plan.tasks.length = 6 + (blocker?.toList.length + blockers.length)
      ∧ r.plan.aggregate_risk_score = (r.plan.tasks.map Task.risk_score).sum := by
  refine ⟨_, runOrch_std nowIso nowDay audit0 initiative blocker? blockers, ?_, ?_⟩
  · rw [foldl_refine_length, sprintPlan_tasks_length,
      collectBlockers_length blocker? blockers h]
  · exact foldl_refine_agg _ _ (sprintPlan_agg _ _)

/-- Witness for C1: a run with one single blocker and a two-element blocker
list yields 6 + 3 tasks and a consistent aggregate. -/
theorem claim_C1_witness :
    (some "network" ≠ some "")
      ∧ ∃ r, (runOrchestrator "t" 0 [] [] "Latency Optimization" (some "network")
            ["db", "cache"]).result = Except.ok r
          ∧ r.plan.tasks.length = 6 + ((some "network").toList.length + ["db", "cache"].length)
          ∧ r.plan.aggregate_risk_score = (r.plan.tasks.map Task.risk_score).sum :=
  ⟨by decide,
   claim_C1_run_task_count_and_aggregate "t" 0 [] "Latency Optimization" (some "network")
     ["db", "cache"] (by decide)⟩

/-- C5 counterexample: a run with one blocker has `metrics.last_points = 23`
(the base plan's points, computed before refinement) while the returned
plan's tasks sum to 25 points including the mitigation task. -/
theorem claim_C5_counterexample :
    ((runOrchestrator "t" 0 [] [] "x" (some "b") []).result.map fun r =>
        (r.metrics.last_points, (r.plan.tasks.map Task.estimate_points).sum)) =
      Except.ok (23, 25) ∧ (23 : Nat) ≠ 25 :=
  ⟨rfl, by decide⟩

/-- C5 (amended): `metrics.last_points` in the result of `run` equals the
total `estimate_points` of the plan as produced by the planning step, before
any mitigation tasks are appended (so it equals the final plan's total only
when no blocker was processed). -/
theorem claim_C5_last_points_base_plan (nowIso : String) (nowDay : Nat)
    (audit0 : List AuditEntry) (initiative : String) (blocker? : Option String)
    (blockers : List String) (r : RunResult)
    (h : (runOrchestrator nowIso nowDay audit0 [] initiative blocker? blockers).result =
      Except.ok r) :
    r.metrics.last_points = ((sprintPlan nowIso initiative).tasks.map Task.estimate_points).sum := by
  rw [runOrch_std] at h
  cases h
  rfl

/-- Witness for C5 (amended) at a concrete run with two blockers. -/
theorem claim_C5_witness :
    ∃ r, (runOrchestrator "t" 0 [] [] "x" none ["a", "b"]).result = Except.ok r
      ∧ r.metrics.last_points = ((sprintPlan "t" "x").tasks.map Task.estimate_points).sum :=
  ⟨_, rfl, claim_C5_last_points_base_plan "t" 0 [] "x" none ["a", "b"] _ rfl⟩

/-! Helper lemmas for `reprioritize_tasks`. -/

theorem posOf_cons_self (a : String) (l : List String) : posOf (a :: l) a = 0 := by
  simp [posOf]

theorem posOf_cons_ne (a x : String) (l : List String) (h : a ≠ x) :
    posOf (a :: l) x = posOf l x + 1 := by
  simp [posOf, h]

theorem posOf_getElem (l : List String) (hnd : l.Nodup) (i : Nat) (hi : i < l.length) :
    posOf l l[i] = i := by
  induction l generalizing i with
  | nil => simp at hi
  | cons a tl ih =>
    rw [List.nodup_cons] at hnd
    cases i with
    | zero => simpa using posOf_cons_self a tl
    | succ j =>
      have hj : j < tl.length := by simpa using hi
      have hmem : tl[j] ∈ tl := List.getElem_mem hj
      have hne : a ≠ tl[j] := fun he => hnd.1 (he ▸ hmem)
      rw [List.getElem_cons_succ, posOf_cons_ne a tl[j] tl hne, ih hnd.2 j hj]

theorem posOf_pairwise (l : List String) (hnd : l.Nodup) :
    l.Pairwise fun a b => posOf l a < posOf l b := by
  induction l with
  | nil => exact List.Pairwise.nil
  | cons a tl ih =>
    rw [List.nodup_cons] at hnd
    refine List.Pairwise.cons ?_ ?_
    · intro b hb
      have hne : a ≠ b := fun he => hnd.1 (he ▸ hb)
      rw [posOf_cons_self, posOf_cons_ne a b tl hne]
      omega
    · refine (ih hnd.2).imp_of_mem ?_
      intro x y hx hy hxy
      have hxa : a ≠ x := fun he => hnd.1 (he ▸ hx)
      have hya : a ≠ y := fun he => hnd.1 (he ▸ hy)
      rw [posOf_cons_ne a x tl hxa, posOf_cons_ne a y tl hya]
      omega

theorem byId_eq_of_mem (ts : List Task) (hnd : (ts.map Task.id).Nodup) (t : Task)
    (ht : t ∈ ts) (hne : t.id ≠ "") : byId ts t.id = some t := by
  induction ts with
  | nil => cases ht
  | cons u us ih =>
    rw [List.map_cons, List.nodup_cons] at hnd
    rcases List.mem_cons.mp ht with rfl | hmem
    · have hfilter : us.filter (fun v => decide (v.id ≠ "" ∧ v.id = t.id)) = [] := by
        rw [List.filter_eq_nil_iff]
        intro v hv hdec
        rw [decide_eq_true_iff] at hdec
        exact hnd.1 (hdec.2 ▸ List.mem_map_of_mem Task.id hv)
      unfold byId
      rw [List.filter_cons_of_pos (by simp [hne]), hfilter]
      rfl
    · have hpred : ¬ (decide (u.id ≠ "" ∧ u.id = t.id) = true) := by
        rw [decide_eq_true_iff]
        rintro ⟨-, he⟩
        exact hnd.1 (he ▸ List.mem_map_of_mem Task.id hmem)
      unfold byId
      rw [List.filter_cons, if_neg hpred]
      exact ih hnd.2 hmem

theorem byId_eq_some (ts : List Task) (tid : String) (u : Task)
    (h : byId ts tid = some u) : u ∈ ts ∧ u.id = tid ∧ u.id ≠ "" := by
  have hmem := List.mem_of_getLast?_eq_some h
  rw [List.mem_filter] at hmem
  have hp := hmem.2
  rw [decide_eq_true_iff] at hp
  exact ⟨hmem.1, hp.2, hp.1⟩

theorem byId_isSome_iff (ts : List Task) (tid : String) :
    (byId ts tid).isSome ↔ ∃ t ∈ ts, t.id ≠ "" ∧ t.id = tid := by
  constructor
  · intro h
    rw [Option.isSome_iff_exists] at h
    obtain ⟨u, hu⟩ := h
    obtain ⟨h1, h2, h3⟩ := byId_eq_some ts tid u hu
    exact ⟨u, h1, h3, h2 ▸ h2⟩
  · rintro ⟨t, ht, hne, hid⟩
    unfold byId
    rw [Option.isSome_iff_ne_none, Ne, List.getLast?_eq_none_iff]
    intro hnil
    rw [List.filter_eq_nil_iff] at hnil
    exact hnil t ht (decide_eq_true ⟨hne, hid⟩)

theorem theTask_eq_of_mem (ts : List Task) (hnd : (ts.map Task.id).Nodup) (t : Task)
    (ht : t ∈ ts) (hne : t.id ≠ "") : theTask ts t.id = t := by
  unfold theTask
  rw [byId_eq_of_mem ts hnd t ht hne]
  rfl

theorem normalizeIds_spec (ts : List Task) (os : List String) :
    ∀ acc : List String,
      ∃ s, os.foldl (fun acc tid =>
            if (byId ts tid).isSome ∧ tid ∉ acc then acc ++ [tid] else acc) acc = acc ++ s
        ∧ List.Sublist s os
        ∧ s.Nodup
        ∧ (∀ tid ∈ s, tid ∉ acc)
        ∧ (∀ tid ∈ s, (byId ts tid).isSome)
        ∧ (∀ tid ∈ os, (byId ts tid).isSome → tid ∈ acc ++ s) := by
  induction os with
  | nil =>
    intro acc
    exact ⟨[], by simp, by simp, List.nodup_nil, by simp, by simp, by simp⟩
  | cons tid rest ih =>
    intro acc
    by_cases hc : (byId ts tid).isSome ∧ tid ∉ acc
    · obtain ⟨s, hs1, hs2, hs3, hs4, hs5, hs6⟩ := ih (acc ++ [tid])
      refine ⟨tid :: s, ?_, hs2.cons₂ tid, ?_, ?_, ?_, ?_⟩
      · rw [List.foldl_cons, if_pos hc, hs1]
        simp
      · rw [List.nodup_cons]
        exact ⟨fun hmem => (hs4 tid hmem) (by simp), hs3⟩
      · intro x hx
        rcases List.mem_cons.mp hx with rfl | hxs
        · exact hc.2
        · exact fun hxacc => hs4 x hxs (List.mem_append_left _ hxacc)
      · intro x hx
        rcases List.mem_cons.mp hx with rfl | hxs
        · exact hc.1
        · exact hs5 x hxs
      · intro x hx hsome
        rcases List.mem_cons.mp hx with rfl | hxr
        · exact List.mem_append_right _ (List.mem_cons_self _ _)
        · have hmem := hs6 x hxr hsome
          simpa [List.mem_append, List.mem_cons, or_assoc] using hmem
    · obtain ⟨s, hs1, hs2, hs3, hs4, hs5, hs6⟩ := ih acc
      refine ⟨s, ?_, hs2.cons tid, hs3, hs4, hs5, ?_⟩
      · rw [List.foldl_cons, if_neg hc]
        exact hs1
      · intro x hx hsome
        rcases List.mem_cons.mp hx with rfl | hxr
        · rw [not_and_or] at hc
          rcases hc with h1 | h2
          · exact absurd hsome h1
          · rw [not_not] at h2
            exact List.mem_append_left _ h2
        · exact hs6 x hxr hsome

theorem normalizeIds_props (ts : List Task) (os : List String) :
    List.Sublist (normalizeIds ts os) os ∧ (normalizeIds ts os).Nodup
      ∧ (∀ tid ∈ normalizeIds ts os, (byId ts tid).isSome)
      ∧ (∀ tid ∈ os, (byId ts tid).isSome → tid ∈ normalizeIds ts os) := by
  obtain ⟨s, h1, h2, h3, _, h5, h6⟩ := normalizeIds_spec ts os []
  have he : normalizeIds ts os = s := by
    unfold normalizeIds
    rw [h1, List.nil_append]
  rw [he]
  refine ⟨h2, h3, h5, fun tid ht hs => ?_⟩
  have := h6 tid ht hs
  rwa [List.nil_append] at this

theorem normalizeIds_full (ts : List Task) (os : List String) (hnd : os.Nodup)
    (hsome : ∀ tid ∈ os, (byId ts tid).isSome) :
    normalizeIds ts os = os := by
  suffices hgen : ∀ (l acc : List String), (acc ++ l).Nodup →
      (∀ tid ∈ l, (byId ts tid).isSome) →
      l.foldl (fun acc tid =>
        if (byId ts tid).isSome ∧ tid ∉ acc then acc ++ [tid] else acc) acc = acc ++ l by
    have := hgen os [] (by simpa using hnd) hsome
    unfold normalizeIds
    rw [this, List.nil_append]
  intro l
  induction l with
  | nil => intro acc _ _; simp
  | cons tid rest ih =>
    intro acc hnd2 hsome2
    have hcond : (byId ts tid).isSome ∧ tid ∉ acc := by
      refine ⟨hsome2 tid (List.mem_cons_self _ _), fun hin => ?_⟩
      rw [List.nodup_append] at hnd2
      exact hnd2.2.2 hin (List.mem_cons_self _ _)
    rw [List.foldl_cons, if_pos hcond,
      ih (acc ++ [tid]) (by simpa using hnd2)
        (fun x hx => hsome2 x (List.mem_cons_of_mem _ hx))]
    simp

theorem remainingIds_sublist (ts : List Task) (os : List String) :
    List.Sublist (remainingIds ts os) (ts.map Task.id) :=
  List.Sublist.map Task.id (List.filter_sublist ts)

theorem remainingIds_mem (ts : List Task) (os : List String) (tid : String) :
    tid ∈ remainingIds ts os ↔
      (∃ t ∈ ts, t.id = tid) ∧ tid ∉ normalizeIds ts os := by
  unfold remainingIds
  constructor
  · intro h
    rw [List.mem_map] at h
    obtain ⟨t, ht, rfl⟩ := h
    rw [List.mem_filter] at ht
    have hp := ht.2
    rw [decide_eq_true_iff] at hp
    exact ⟨⟨t, ht.1, rfl⟩, hp⟩
  · rintro ⟨⟨t, ht, rfl⟩, hnot⟩
    rw [List.mem_map]
    exact ⟨t, List.mem_filter.mpr ⟨ht, decide_eq_true hnot⟩, rfl⟩

/-- The combined `final_order` of `reprioritize_tasks` is a duplicate-free
permutation of the plan's task ids (for distinct, non-empty ids). -/
theorem finalOrder_perm (ts : List Task) (os : List String)
    (hnd : (ts.map Task.id).Nodup) :
    (normalizeIds ts os ++ remainingIds ts os).Nodup
      ∧ (normalizeIds ts os ++ remainingIds ts os).Perm (ts.map Task.id) := by
  obtain ⟨hsub, hnodup, hsome, hcover⟩ := normalizeIds_props ts os
  have hremnd : (remainingIds ts os).Nodup :=
    hnd.sublist (remainingIds_sublist ts os)
  have hndall : (normalizeIds ts os ++ remainingIds ts os).Nodup := by
    rw [List.nodup_append]
    refine ⟨hnodup, hremnd, fun x hx hx2 => ?_⟩
    rw [remainingIds_mem] at hx2
    exact hx2.2 hx
  refine ⟨hndall, ?_⟩
  rw [List.perm_ext_iff_of_nodup hndall hnd]
  intro tid
  rw [List.mem_append, remainingIds_mem]
  constructor
  · rintro (hx | hx)
    · have := hsome tid hx
      rw [byId_isSome_iff] at this
      obtain ⟨t, ht, _, hid⟩ := this
      exact hid ▸ List.mem_map_of_mem Task.id ht
    · obtain ⟨⟨t, ht, rfl⟩, _⟩ := hx
      exact List.mem_map_of_mem Task.id ht
  · intro hx
    rw [List.mem_map] at hx
    obtain ⟨t, ht, rfl⟩ := hx
    by_cases hmem : t.id ∈ normalizeIds ts os
    · exact Or.inl hmem
    · exact Or.inr ⟨⟨t, ht, rfl⟩, hmem⟩

/-- One full pass of the Python priority-assignment loop, as a map: with a
duplicate-free `final_order`, the task with id at position `j` (0-based)
receives priority `k + j`. -/
theorem assignLoop_eq_map (l : List String) (hl : l.Nodup) :
    ∀ (ts : List Task) (k : Nat), assignLoop ts k l = ts.map (updWith l k) := by
  induction l with
  | nil =>
    intro ts k
    have hid : updWith [] k = id := by
      funext t
      simp [updWith]
    rw [assignLoop, hid, List.map_id]
  | cons tid rest ih =>
    intro ts k
    rw [List.nodup_cons] at hl
    rw [assignLoop, ih hl.2, List.map_map]
    refine List.map_congr_left fun t _ => ?_
    show updWith rest (k + 1)
        (if t.id = tid ∧ t.id ≠ "" then { t with priority := k } else t) =
      updWith (tid :: rest) k t
    by_cases h1 : t.id = tid ∧ t.id ≠ ""
    · rw [if_pos h1]
      have hrest : tid ∉ rest := hl.1
      rw [updWith, if_neg (by simp [h1.1, hrest]), updWith,
        if_pos ⟨List.mem_cons.mpr (Or.inl h1.1), h1.2⟩]
      rw [show posOf (tid :: rest) t.id = 0 from h1.1 ▸ posOf_cons_self tid rest,
        Nat.add_zero]
    · rw [if_neg h1]
      by_cases h2 : t.id ∈ rest ∧ t.id ≠ ""
      · have hne2 : tid ≠ t.id := by
          rintro rfl
          exact h1 ⟨rfl, h2.2⟩
        rw [updWith, if_pos h2, updWith,
          if_pos ⟨List.mem_cons.mpr (Or.inr h2.1), h2.2⟩,
          posOf_cons_ne tid t.id rest hne2]
        have : k + (posOf rest t.id + 1) = k + 1 + posOf rest t.id := by omega
        rw [this]
      · have hcond : ¬ (t.id ∈ tid :: rest ∧ t.id ≠ "") := by
          rintro ⟨hmem, hneq⟩
          rcases List.mem_cons.mp hmem with rfl | hmem2
          · exact h1 ⟨rfl, hneq⟩
          · exact h2 ⟨hmem2, hneq⟩
        rw [updWith, if_neg h2, updWith, if_neg hcond]

/-- Closed form of the in-memory core of `reprioritize_tasks` for plans with
distinct non-empty task ids: the result lists the tasks in `final_order`
(explicitly requested ids first, then the unmentioned tasks in original
order), the task with the id at position `j` carrying priority `j + 1`. -/
theorem reprioritizePure_eq (ts : List Task) (os : List String)
    (hnd : (ts.map Task.id).Nodup) (hne : ∀ t ∈ ts, t.id ≠ "") :
    reprioritizePure ts os = setPrioAt ts (normalizeIds ts os ++ remainingIds ts os) := by
  obtain ⟨hfnd, hperm⟩ := finalOrder_perm ts os hnd
  set final := normalizeIds ts os ++ remainingIds ts os with hfinal
  have hassign : assignLoop ts 1 final = ts.map (updWith final 1) :=
    assignLoop_eq_map final hfnd ts 1
  have hmemfinal : ∀ t ∈ ts, t.id ∈ final := by
    intro t ht
    rw [hperm.mem_iff]
    exact List.mem_map_of_mem Task.id ht
  have hpoint : ∀ t ∈ ts,
      updWith final 1 t = { theTask ts t.id with priority := posOf final t.id + 1 } := by
    intro t ht
    rw [updWith, if_pos ⟨hmemfinal t ht, hne t ht⟩, theTask_eq_of_mem ts hnd t ht (hne t ht),
      Nat.add_comm 1 (posOf final t.id)]
  have hpermTasks : (setPrioAt ts final).Perm (assignLoop ts 1 final) := by
    rw [hassign]
    unfold setPrioAt
    refine (hperm.map fun tid =>
      { theTask ts tid with priority := posOf final tid + 1 }).trans ?_
    rw [List.map_map,
      List.map_congr_left
        (fun t ht => by simpa [Function.comp] using (hpoint t ht).symm)]
  have hsorted_target : (setPrioAt ts final).Pairwise fun a b => a.priority < b.priority := by
    unfold setPrioAt
    rw [List.pairwise_map]
    exact (posOf_pairwise final hfnd).imp fun h => Nat.succ_lt_succ h
  have htrans : ∀ a b c : Task,
      (fun a b : Task => decide (a.priority ≤ b.priority)) a b = true →
      (fun a b : Task => decide (a.priority ≤ b.priority)) b c = true →
      (fun a b : Task => decide (a.priority ≤ b.priority)) a c = true := by
    intro a b c h1 h2
    simp only [decide_eq_true_iff] at *
    omega
  have htotal : ∀ a b : Task,
      ((fun a b : Task => decide (a.priority ≤ b.priority)) a b ||
        (fun a b : Task => decide (a.priority ≤ b.priority)) b a) = true := by
    intro a b
    simp only [Bool.or_eq_true, decide_eq_true_iff]
    omega
  have hsorted_le :
      ((assignLoop ts 1 final).mergeSort
          (fun a b : Task => decide (a.priority ≤ b.priority))).Pairwise
        (fun a b => a.priority ≤ b.priority) := by
    refine (List.sorted_mergeSort htrans htotal (assignLoop ts 1 final)).imp ?_
    intro a b h
    exact decide_eq_true_iff.mp h
  have hperm_result :
      ((assignLoop ts 1 final).mergeSort
          (fun a b : Task => decide (a.priority ≤ b.priority))).Perm
        (setPrioAt ts final) :=
    (List.mergeSort_perm _ _).trans hpermTasks.symm
  have hnodupP_target : ((setPrioAt ts final).map Task.priority).Nodup := by
    have hlt : ((setPrioAt ts final).map Task.priority).Pairwise (· < ·) :=
      List.pairwise_map.mpr hsorted_target
    exact hlt.imp fun h => Nat.ne_of_lt h
  have hnodupP_result :
      (((assignLoop ts 1 final).mergeSort
          (fun a b : Task => decide (a.priority ≤ b.priority))).map Task.priority).Nodup :=
    ((hperm_result.map Task.priority).nodup_iff).mpr hnodupP_target
  have hsorted_result :
      ((assignLoop ts 1 final).mergeSort
          (fun a b : Task => decide (a.priority ≤ b.priority))).Pairwise
        (fun a b => a.priority < b.priority) := by
    have hneq := List.pairwise_map.mp hnodupP_result
    exact (hsorted_le.and hneq).imp fun h => lt_of_le_of_ne h.1 h.2
  haveI : IsAntisymm Task (fun a b => a.priority < b.priority) :=
    ⟨fun a b h1 h2 => absurd (h1.trans h2) (lt_irrefl _)⟩
  unfold reprioritizePure
  exact List.eq_of_perm_of_sorted hperm_result hsorted_result hsorted_target

theorem Task_set_priority_self (t : Task) (v : Nat) (h : t.priority = v) :
    ({ t with priority := v } : Task) = t := by
  cases t
  cases h
  rfl

theorem setPrioAt_map_id (ts : List Task) (final : List String)
    (hnd : (ts.map Task.id).Nodup)
    (hex : ∀ tid ∈ final, ∃ t ∈ ts, t.id = tid ∧ t.id ≠ "") :
    (setPrioAt ts final).map Task.id = final := by
  unfold setPrioAt
  rw [List.map_map]
  have hpt : ∀ tid ∈ final,
      (Task.id ∘ fun tid => { theTask ts tid with priority := posOf final tid + 1 }) tid
        = id tid := by
    intro tid htid
    obtain ⟨t, ht, hid, hne⟩ := hex tid htid
    simp only [Function.comp_apply, id_eq]
    rw [← hid, theTask_eq_of_mem ts hnd t ht hne]
  rw [List.map_congr_left hpt, List.map_id]

theorem setPrioAt_priority (ts : List Task) (final : List String) (hfnd : final.Nodup)
    (i : Nat) (hi : i < (setPrioAt ts final).length) :
    (setPrioAt ts final)[i].priority = i + 1 := by
  have hi' : i < final.length := by simpa [setPrioAt] using hi
  show ((setPrioAt ts final)[i]).priority = i + 1
  unfold setPrioAt
  rw [List.getElem_map]
  show posOf final final[i] + 1 = i + 1
  rw [posOf_getElem final hfnd i hi']

theorem setPrioAt_mem_src (ts : List Task) (final : List String)
    (hnd : (ts.map Task.id).Nodup)
    (hex : ∀ tid ∈ final, ∃ t ∈ ts, t.id = tid ∧ t.id ≠ "") :
    ∀ t' ∈ setPrioAt ts final, ∃ t ∈ ts, t' = { t with priority := t'.priority } := by
  intro t' ht'
  unfold setPrioAt at ht'
  rw [List.mem_map] at ht'
  obtain ⟨tid, htid, rfl⟩ := ht'
  obtain ⟨t, ht, hid, hne⟩ := hex tid htid
  refine ⟨t, ht, ?_⟩
  rw [← hid, theTask_eq_of_mem ts hnd t ht hne]

/-- C2: `reprioritize_tasks` on a stored plan with distinct non-empty task
ids: unknown ids are dropped and duplicates collapse to the first occurrence
(the requested prefix of the final id order is a duplicate-free subsequence of
the request containing exactly the plan's requested ids), unmentioned tasks
keep their prior relative order after the requested ones, priorities are
reassigned 1, 2, … over the re-sorted task list, and the tasks themselves
(ids, count, all fields except `priority`) are unchanged. -/
theorem claim_C2_reprioritize_contract (now : String) (d : RunDir) (p : Plan)
    (os : List String) (hp : d.planFile = some p)
    (hnd : (p.tasks.map Task.id).Nodup)
    (hne : ∀ t ∈ p.tasks, t.id ≠ "") :
    ∃ p', reprioritize_tasks now d os = (Except.ok p', { d with planFile := some p' })
      ∧ p'.tasks.map Task.id = normalizeIds p.tasks os ++ remainingIds p.tasks os
      ∧ List.Sublist (normalizeIds p.tasks os) os
      ∧ (normalizeIds p.tasks os).Nodup
      ∧ (∀ tid, tid ∈ normalizeIds p.tasks os ↔
          (tid ∈ os ∧ ∃ t ∈ p.tasks, t.id = tid))
      ∧ (∀ tid, tid ∈ remainingIds p.tasks os ↔
          ((∃ t ∈ p.tasks, t.id = tid) ∧ tid ∉ normalizeIds p.tasks os))
      ∧ (∀ i (hi : i < p'.tasks.length), p'.tasks[i].priority = i + 1)
      ∧ p'.tasks.length = p.tasks.length
      ∧ (p'.tasks.map Task.id).Perm (p.tasks.map Task.id)
      ∧ (∀ t' ∈ p'.tasks, ∃ t ∈ p.tasks, t' = { t with priority := t'.priority }) := by
  obtain ⟨hfnd, hperm⟩ := finalOrder_perm p.tasks os hnd
  obtain ⟨hsub, hnodup, hsome, hcover⟩ := normalizeIds_props p.tasks os
  have hchar := reprioritizePure_eq p.tasks os hnd hne
  have hex : ∀ tid ∈ normalizeIds p.tasks os ++ remainingIds p.tasks os,
      ∃ t ∈ p.tasks, t.id = tid ∧ t.id ≠ "" := by
    intro tid htid
    have : tid ∈ p.tasks.map Task.id := hperm.mem_iff.mp htid
    rw [List.mem_map] at this
    obtain ⟨t, ht, rfl⟩ := this
    exact ⟨t, ht, rfl, hne t ht⟩
  refine ⟨{ p with tasks := reprioritizePure p.tasks os, updated_at := some now },
    ?_, ?_, hsub, hnodup, ?_, ?_, ?_, ?_, ?_, ?_⟩
  · simp [reprioritize_tasks, load_plan, save_plan, hp]
  · show (reprioritizePure p.tasks os).map Task.id = _
    rw [hchar]
    exact setPrioAt_map_id p.tasks _ hnd hex
  · intro tid
    constructor
    · intro h
      refine ⟨hsub.subset h, ?_⟩
      have := hsome tid h
      rw [byId_isSome_iff] at this
      obtain ⟨t, ht, _, hid⟩ := this
      exact ⟨t, ht, hid⟩
    · rintro ⟨hos, t, ht, hid⟩
      exact hcover tid hos (byId_isSome_iff p.tasks tid |>.mpr ⟨t, ht, hne t ht, hid⟩)
  · exact fun tid => remainingIds_mem p.tasks os tid
  · intro i hi
    show (reprioritizePure p.tasks os)[i].priority = i + 1
    have hi2 : i < (setPrioAt p.tasks
        (normalizeIds p.tasks os ++ remainingIds p.tasks os)).length := by
      rw [← hchar]
      exact hi
    have := setPrioAt_priority p.tasks _ hfnd i hi2
    simpa [hchar] using this
  · show (reprioritizePure p.tasks os).length = p.tasks.length
    rw [hchar]
    unfold setPrioAt
    rw [List.length_map, hperm.length_eq, List.length_map]
  · show ((reprioritizePure p.tasks os).map Task.id).Perm (p.tasks.map Task.id)
    rw [hchar, setPrioAt_map_id p.tasks _ hnd hex]
    exact hperm
  · show ∀ t' ∈ reprioritizePure p.tasks os, _
    rw [hchar]
    exact setPrioAt_mem_src p.tasks _ hnd hex

/-- Witness for C2: a stored three-task plan reprioritized with a request
containing an unknown id and a duplicate. -/
theorem claim_C2_witness :
    ∃ p', reprioritize_tasks "t2" wDir ["T2", "T9", "T2"] =
        (Except.ok p', { wDir with planFile := some p' })
      ∧ p'.tasks.map Task.id =
          normalizeIds wPlan.tasks ["T2", "T9", "T2"]
            ++ remainingIds wPlan.tasks ["T2", "T9", "T2"]
      ∧ List.Sublist (normalizeIds wPlan.tasks ["T2", "T9", "T2"]) ["T2", "T9", "T2"]
      ∧ (normalizeIds wPlan.tasks ["T2", "T9", "T2"]).Nodup
      ∧ (∀ tid, tid ∈ normalizeIds wPlan.tasks ["T2", "T9", "T2"] ↔
          (tid ∈ ["T2", "T9", "T2"] ∧ ∃ t ∈ wPlan.tasks, t.id = tid))
      ∧ (∀ tid, tid ∈ remainingIds wPlan.tasks ["T2", "T9", "T2"] ↔
          ((∃ t ∈ wPlan.tasks, t.id = tid)
            ∧ tid ∉ normalizeIds wPlan.tasks ["T2", "T9", "T2"]))
      ∧ (∀ i (hi : i < p'.tasks.length), p'.tasks[i].priority = i + 1)
      ∧ p'.tasks.length = wPlan.tasks.length
      ∧ (p'.tasks.map Task.id).Perm (wPlan.tasks.map Task.id)
      ∧ (∀ t' ∈ p'.tasks, ∃ t ∈ wPlan.tasks, t' = { t with priority := t'.priority }) :=
  claim_C2_reprioritize_contract "t2" wDir wPlan ["T2", "T9", "T2"] rfl
    (by decide) (by decide)

theorem setPrioAt_self (ts2 : List Task) (final : List String)
    (hfnd : final.Nodup)
    (hmap : ts2.map Task.id = final)
    (hne2 : ∀ t' ∈ ts2, t'.id ≠ "")
    (hpr : ∀ i (hi : i < ts2.length), ts2[i].priority = i + 1) :
    setPrioAt ts2 final = ts2 := by
  have hlen : final.length = ts2.length := by
    rw [← hmap, List.length_map]
  have hnd2 : (ts2.map Task.id).Nodup := by
    rw [hmap]
    exact hfnd
  apply List.ext_getElem
  · unfold setPrioAt
    rw [List.length_map, hlen]
  · intro i h1 h2
    have hif : i < final.length := by
      simpa [setPrioAt] using h1
    show (setPrioAt ts2 final)[i] = ts2[i]
    unfold setPrioAt
    rw [List.getElem_map]
    have hlen2 : i < (ts2.map Task.id).length := by
      rw [hmap]
      exact hif
    have hid : final[i] = ts2[i].id := by
      have hstep : final[i] = (ts2.map Task.id)[i] := by
        simp only [hmap]
      rw [hstep, List.getElem_map]
    have hposi : posOf final final[i] = i := posOf_getElem final hfnd i hif
    rw [hid, theTask_eq_of_mem ts2 hnd2 ts2[i] (List.getElem_mem h2) (hne2 _ (List.getElem_mem h2))]
    rw [← hid, hposi]
    exact Task_set_priority_self ts2[i] (i + 1) (hpr i h2)

/-- C9: applying `reprioritize_tasks` and then re-applying it with the full
id ordering produced by the first application yields the same task list
(same order, same priorities) as after the first application. -/
theorem claim_C9_reprioritize_idempotent (now now₂ : String) (d : RunDir) (p : Plan)
    (os : List String) (hp : d.planFile = some p)
    (hnd : (p.tasks.map Task.id).Nodup)
    (hne : ∀ t ∈ p.tasks, t.id ≠ "") :
    ∃ p₁ p₂,
      reprioritize_tasks now d os = (Except.ok p₁, { d with planFile := some p₁ })
        ∧ reprioritize_tasks now₂ { d with planFile := some p₁ } (p₁.tasks.map Task.id) =
            (Except.ok p₂, { d with planFile := some p₂ })
        ∧ p₂.tasks = p₁.tasks := by
  obtain ⟨hfnd, hperm⟩ := finalOrder_perm p.tasks os hnd
  have hchar := reprioritizePure_eq p.tasks os hnd hne
  have hex : ∀ tid ∈ normalizeIds p.tasks os ++ remainingIds p.tasks os,
      ∃ t ∈ p.tasks, t.id = tid ∧ t.id ≠ "" := by
    intro tid htid
    have : tid ∈ p.tasks.map Task.id := hperm.mem_iff.mp htid
    rw [List.mem_map] at this
    obtain ⟨t, ht, rfl⟩ := this
    exact ⟨t, ht, rfl, hne t ht⟩
  set p₁ : Plan := { p with tasks := reprioritizePure p.tasks os, updated_at := some now }
    with hp₁
  have hfirst : reprioritize_tasks now d os = (Except.ok p₁, { d with planFile := some p₁ }) := by
    simp [reprioritize_tasks, load_plan, save_plan, hp, hp₁]
  have htasks1 : p₁.tasks = reprioritizePure p.tasks os := rfl
  have hmap1 : p₁.tasks.map Task.id = normalizeIds p.tasks os ++ remainingIds p.tasks os := by
    rw [htasks1, hchar]
    exact setPrioAt_map_id p.tasks _ hnd hex
  have hnd2 : (p₁.tasks.map Task.id).Nodup := by
    rw [hmap1]
    exact hfnd
  have hne2 : ∀ t' ∈ p₁.tasks, t'.id ≠ "" := by
    intro t' ht'
    have hmem : t'.id ∈ normalizeIds p.tasks os ++ remainingIds p.tasks os := by
      rw [← hmap1]
      exact List.mem_map_of_mem Task.id ht'
    obtain ⟨t, _, hid, hnet⟩ := hex t'.id hmem
    exact hid ▸ hnet
  have hpr1 : ∀ i (hi : i < p₁.tasks.length), p₁.tasks[i].priority = i + 1 := by
    intro i hi
    have hi2 : i < (setPrioAt p.tasks
        (normalizeIds p.tasks os ++ remainingIds p.tasks os)).length := by
      rw [← hchar]
      exact hi
    have := setPrioAt_priority p.tasks _ hfnd i hi2
    simpa [htasks1, hchar] using this
  have hsome2 : ∀ tid ∈ normalizeIds p.tasks os ++ remainingIds p.tasks os,
      (byId p₁.tasks tid).isSome := by
    intro tid htid
    have : tid ∈ p₁.tasks.map Task.id := by
      rw [hmap1]
      exact htid
    rw [List.mem_map] at this
    obtain ⟨t', ht', hid⟩ := this
    exact (byId_isSome_iff p₁.tasks tid).mpr ⟨t', ht', hne2 t' ht', hid⟩
  have hos2 : normalizeIds p₁.tasks (normalizeIds p.tasks os ++ remainingIds p.tasks os) =
      normalizeIds p.tasks os ++ remainingIds p.tasks os :=
    normalizeIds_full p₁.tasks _ hfnd hsome2
  have hrem2 : remainingIds p₁.tasks (normalizeIds p.tasks os ++ remainingIds p.tasks os) = [] := by
    show (p₁.tasks.filter fun t =>
        t.id ∉ normalizeIds p₁.tasks
          (normalizeIds p.tasks os ++ remainingIds p.tasks os)).map Task.id = []
    rw [hos2]
    have hfil : (p₁.tasks.filter fun t =>
        t.id ∉ normalizeIds p.tasks os ++ remainingIds p.tasks os) = [] := by
      rw [List.filter_eq_nil_iff]
      intro t' ht' hdec
      rw [decide_eq_true_iff] at hdec
      exact hdec (by rw [← hmap1]; exact List.mem_map_of_mem Task.id ht')
    rw [hfil]
    rfl
  have hchar2 := reprioritizePure_eq p₁.tasks
    (normalizeIds p.tasks os ++ remainingIds p.tasks os) hnd2 hne2
  have hsecond : reprioritizePure p₁.tasks (p₁.tasks.map Task.id) = p₁.tasks := by
    rw [hmap1, hchar2, hos2, hrem2, List.append_nil]
    exact setPrioAt_self p₁.tasks _ hfnd hmap1 hne2 hpr1
  refine ⟨p₁,
    { p₁ with
      tasks := reprioritizePure p₁.tasks (p₁.tasks.map Task.id)
      updated_at := some now₂ },
    hfirst, ?_, ?_⟩
  · simp [reprioritize_tasks, load_plan, save_plan]
  · exact hsecond

/-- Witness for C9 on the concrete fixture plan. -/
theorem claim_C9_witness :
    ∃ p₁ p₂,
      reprioritize_tasks "t2" wDir ["T2", "T9", "T2"] =
          (Except.ok p₁, { wDir with planFile := some p₁ })
        ∧ reprioritize_tasks "t3" { wDir with planFile := some p₁ }
              (p₁.tasks.map Task.id) =
            (Except.ok p₂, { wDir with planFile := some p₂ })
        ∧ p₂.tasks = p₁.tasks :=
  claim_C9_reprioritize_idempotent "t2" "t3" wDir wPlan ["T2", "T9", "T2"] rfl
    (by decide) (by decide)

/-! Helper lemmas for the event-bus failure claim. -/

theorem runHandlers_ok (hs : List Handler) (p : Payload)
    (hall : ∀ h ∈ hs, ∃ es, h p = Except.ok es) :
    runHandlers hs p = ((hs.map (okOut p)).flatten, none) := by
  induction hs with
  | nil => simp [runHandlers]
  | cons h hs ih =>
    obtain ⟨es, hes⟩ := hall h (List.mem_cons_self _ _)
    rw [runHandlers, hes, ih fun h' hh' => hall h' (List.mem_cons_of_mem _ hh')]
    simp [okOut, hes]

theorem runHandlers_err (p : Payload) (pre : List Handler) (h : Handler)
    (rest : List Handler) (e : String)
    (hpre : ∀ h' ∈ pre, ∃ es, h' p = Except.ok es)
    (herr : h p = Except.error e) :
    runHandlers (pre ++ h :: rest) p = ((pre.map (okOut p)).flatten, some e) := by
  induction pre with
  | nil =>
    rw [List.nil_append, runHandlers, herr]
    simp
  | cons h' pre ih =>
    obtain ⟨es, hes⟩ := hpre h' (List.mem_cons_self _ _)
    rw [List.cons_append, runHandlers, hes,
      ih fun h'' hh'' => hpre h'' (List.mem_cons_of_mem _ hh'')]
    simp [okOut, hes]

theorem runHandlers_entries (hs : List Handler) (p : Payload) :
    ∀ en ∈ (runHandlers hs p).1, ∃ h ∈ hs, ∃ es, h p = Except.ok es ∧ en ∈ es := by
  induction hs with
  | nil => simp [runHandlers]
  | cons h hs ih =>
    intro en hen
    rw [runHandlers] at hen
    cases hh : h p with
    | error e =>
      rw [hh] at hen
      simp at hen
    | ok es =>
      rw [hh] at hen
      simp only at hen
      rcases List.mem_append.mp hen with hl | hr
      · exact ⟨h, List.mem_cons_self _ _, es, hh, hl⟩
      · obtain ⟨h', hh', es', hok', hen'⟩ := ih en hr
        exact ⟨h', List.mem_cons_of_mem _ hh', es', hok', hen'⟩

theorem goodSubs_std (now : String) : GoodSubs (stdSubs now) := by
  intro s h hmem q es hok en hen
  simp only [stdSubs, List.mem_cons, List.not_mem_nil, or_false] at hmem
  rcases hmem with hmem | hmem | hmem | hmem <;>
    rw [show h = _ from congrArg Prod.snd hmem] at hok <;>
      cases q <;>
        first
          | exact Except.noConfusion hok
          | · injection hok with hok2
              subst hok2
              have he := List.mem_singleton.mp hen
              subst he
              simp

theorem goodSubs_append (s1 s2 : List (String × Handler))
    (h1 : GoodSubs s1) (h2 : GoodSubs s2) : GoodSubs (s1 ++ s2) := by
  intro s h hmem q es hok en hen
  rcases List.mem_append.mp hmem with hm | hm
  · exact h1 s h hm q es hok en hen
  · exact h2 s h hm q es hok en hen

theorem handlersFor_mem (bus : EventBus) (ev : String) (h : Handler)
    (hmem : h ∈ handlersFor bus ev) : ∃ s, (s, h) ∈ bus.subs := by
  unfold handlersFor at hmem
  rw [List.mem_map] at hmem
  obtain ⟨⟨s, h'⟩, hmem', rfl⟩ := hmem
  exact ⟨s, (List.mem_filter.mp hmem').1⟩

theorem emit_entries_good (now : String) (bus : EventBus) (ev : String) (p : Payload)
    (hg : GoodSubs bus.subs) :
    ∀ en ∈ (emit now bus ev p).2.1, en.event ≠ "RUN_COMPLETED" := by
  intro en hen
  have hen' : en ∈ (runHandlers (handlersFor bus ev) p).1 := hen
  obtain ⟨h, hh, es, hok, henes⟩ := runHandlers_entries (handlersFor bus ev) p en hen'
  obtain ⟨s, hs⟩ := handlersFor_mem bus ev h hh
  exact hg s h hs p es hok en henes

theorem blockerLoop_shape (now : String) (bs : List String) :
    ∀ (plan : Plan) (bus : EventBus) (audit : List AuditEntry),
      ∃ T, (blockerLoop now bs plan bus audit).2.2.1 = audit ++ T
        ∧ (GoodSubs bus.subs → ∀ en ∈ T, en.event ≠ "RUN_COMPLETED")
        ∧ (blockerLoop now bs plan bus audit).2.1.subs = bus.subs := by
  induction bs with
  | nil =>
    intro plan bus audit
    exact ⟨[], by simp [blockerLoop], by simp, rfl⟩
  | cons b bs ih =>
    intro plan bus audit
    rw [blockerLoop]
    cases he : (emit now bus "BLOCKER_ADDED" (.blockerAdded b)).2.2 with
    | some err =>
      simp only [he]
      exact ⟨(emit now bus "BLOCKER_ADDED" (.blockerAdded b)).2.1, rfl,
        fun hg => emit_entries_good now bus "BLOCKER_ADDED" (.blockerAdded b) hg, rfl⟩
    | none =>
      simp only [he]
      obtain ⟨T', hT1, hT2, hT3⟩ := ih (refineForBlocker plan b)
        (emit now bus "BLOCKER_ADDED" (.blockerAdded b)).1
        (audit ++ (emit now bus "BLOCKER_ADDED" (.blockerAdded b)).2.1)
      refine ⟨(emit now bus "BLOCKER_ADDED" (.blockerAdded b)).2.1 ++ T', ?_, ?_, hT3⟩
      · rw [hT1, List.append_assoc]
      · intro hg en hen
        rcases List.mem_append.mp hen with hl | hr
        · exact emit_entries_good now bus "BLOCKER_ADDED" (.blockerAdded b) hg en hl
        · exact hT2 hg en hr

theorem runOrch_abort_audit (now : String) (nowDay : Nat) (audit0 : List AuditEntry)
    (extra : List (String × Handler)) (i : String) (b? : Option String)
    (bs : List String) (e : String)
    (herr : (runOrchestrator now nowDay audit0 extra i b? bs).result = Except.error e) :
    ∃ T, (runOrchestrator now nowDay audit0 extra i b? bs).audit = audit0 ++ T
      ∧ (GoodSubs extra → ∀ en ∈ T, en.event ≠ "RUN_COMPLETED") := by
  have hgood : GoodSubs extra → GoodSubs (stdSubs now ++ extra) :=
    fun hg => goodSubs_append _ _ (goodSubs_std now) hg
  unfold runOrchestrator at herr ⊢
  cases he1 : (emit now ⟨stdSubs now ++ extra, []⟩ "PLAN_CREATED"
      (Payload.planCreated i (sprintPlan now i).tasks)).2.2 with
  | some err =>
    simp only [he1] at herr ⊢
    exact ⟨_, rfl, fun hg => emit_entries_good now _ _ _ (hgood hg)⟩
  | none =>
    simp only [he1] at herr ⊢
    obtain ⟨T, hT1, hT2, hT3⟩ := blockerLoop_shape now (collectBlockers b? bs)
      (sprintPlan now i)
      (emit now ⟨stdSubs now ++ extra, []⟩ "PLAN_CREATED"
        (Payload.planCreated i (sprintPlan now i).tasks)).1
      (audit0 ++ (emit now ⟨stdSubs now ++ extra, []⟩ "PLAN_CREATED"
        (Payload.planCreated i (sprintPlan now i).tasks)).2.1)
    have hsubs1 : (emit now ⟨stdSubs now ++ extra, []⟩ "PLAN_CREATED"
        (Payload.planCreated i (sprintPlan now i).tasks)).1.subs
          = stdSubs now ++ extra := rfl
    rcases hL : blockerLoop now (collectBlockers b? bs) (sprintPlan now i)
        (emit now ⟨stdSubs now ++ extra, []⟩ "PLAN_CREATED"
          (Payload.planCreated i (sprintPlan now i).tasks)).1
        (audit0 ++ (emit now ⟨stdSubs now ++ extra, []⟩ "PLAN_CREATED"
          (Payload.planCreated i (sprintPlan now i).tasks)).2.1) with
      ⟨plan2, bus2, audit2, err2⟩
    rw [hL] at hT1 hT3
    have hT1a : audit2 = (audit0 ++ (emit now ⟨stdSubs now ++ extra, []⟩ "PLAN_CREATED"
        (Payload.planCreated i (sprintPlan now i).tasks)).2.1) ++ T := hT1
    have hbus2 : bus2.subs = stdSubs now ++ extra := hT3
    have hgood2 : GoodSubs extra → GoodSubs bus2.subs := fun hg => by
      rw [hbus2]
      exact hgood hg
    have hTgood : GoodSubs extra → ∀ en ∈ T, en.event ≠ "RUN_COMPLETED" := fun hg => by
      refine hT2 ?_
      rw [hsubs1]
      exact hgood hg
    cases err2 with
    | some err =>
      simp only [hL] at herr ⊢
      refine ⟨(emit now ⟨stdSubs now ++ extra, []⟩ "PLAN_CREATED"
        (Payload.planCreated i (sprintPlan now i).tasks)).2.1 ++ T, ?_, ?_⟩
      · rw [hT1a, List.append_assoc]
      · intro hg en hen
        rcases List.mem_append.mp hen with hl | hr
        · exact emit_entries_good now _ _ _ (hgood hg) en hl
        · exact hTgood hg en hr
    | none =>
      simp only [hL] at herr ⊢
      cases he3 : (emit now bus2 "RELEASE_DRAFTED"
          (Payload.release (draftRelease nowDay now plan2))).2.2 with
      | some err =>
        simp only [he3] at herr ⊢
        refine ⟨(emit now ⟨stdSubs now ++ extra, []⟩ "PLAN_CREATED"
            (Payload.planCreated i (sprintPlan now i).tasks)).2.1 ++ T ++
          (emit now bus2 "RELEASE_DRAFTED"
            (Payload.release (draftRelease nowDay now plan2))).2.1, ?_, ?_⟩
        · rw [hT1a]
          simp [List.append_assoc]
        · intro hg en hen
          rcases List.mem_append.mp hen with hl | hr
          · rcases List.mem_append.mp hl with hll | hlr
            · exact emit_entries_good now _ _ _ (hgood hg) en hll
            · exact hTgood hg en hlr
          · exact emit_entries_good now bus2 _ _ (hgood2 hg) en hr
      | none =>
        cases he4 : (emit now (emit now bus2 "RELEASE_DRAFTED"
            (Payload.release (draftRelease nowDay now plan2))).1 "STAKEHOLDER_SUMMARY"
            (Payload.summary (summarize plan2 (draftRelease nowDay now plan2)))).2.2 with
        | some err =>
          simp only [he3, he4] at herr ⊢
          refine ⟨(emit now ⟨stdSubs now ++ extra, []⟩ "PLAN_CREATED"
              (Payload.planCreated i (sprintPlan now i).tasks)).2.1 ++ T ++
            (emit now bus2 "RELEASE_DRAFTED"
              (Payload.release (draftRelease nowDay now plan2))).2.1 ++
            (emit now (emit now bus2 "RELEASE_DRAFTED"
              (Payload.release (draftRelease nowDay now plan2))).1 "STAKEHOLDER_SUMMARY"
              (Payload.summary (summarize plan2 (draftRelease nowDay now plan2)))).2.1, ?_, ?_⟩
          · rw [hT1a]
            simp [List.append_assoc]
          · intro hg en hen
            have hgood3 : GoodSubs (emit now bus2 "RELEASE_DRAFTED"
                (Payload.release (draftRelease nowDay now plan2))).1.subs := by
              rw [show (emit now bus2 "RELEASE_DRAFTED"
                  (Payload.release (draftRelease nowDay now plan2))).1.subs = bus2.subs
                from rfl]
              exact hgood2 hg
            rcases List.mem_append.mp hen with hl | hr
            · rcases List.mem_append.mp hl with hll | hlr
              · rcases List.mem_append.mp hll with h3 | h4
                · exact emit_entries_good now _ _ _ (hgood hg) en h3
                · exact hTgood hg en h4
              · exact emit_entries_good now bus2 _ _ (hgood2 hg) en hlr
            · exact emit_entries_good now _ _ _ hgood3 en hr
        | none =>
          simp only [he3, he4] at herr
          cases herr

/-- C7: `emit` appends the `{event, timestamp, payload}` record to the
in-memory history and then invokes every handler subscribed to the event in
subscription order; a raising handler propagates its exception to the caller
of `emit` after the preceding handlers have run; a run aborted by a handler
failure returns no result (`Except.error`), keeps every audit entry already
written for prior steps, and writes no `RUN_COMPLETED` entry (provided the
caller-registered subscribers do not themselves forge one — the standard
audit mirrors never do). -/
theorem claim_C7_handler_failure (now : String) (bus : EventBus) (ev : String)
    (p : Payload) (nowDay : Nat) (audit0 : List AuditEntry)
    (extra : List (String × Handler)) (initiative : String)
    (blocker? : Option String) (blockers : List String) :
    ((emit now bus ev p).1.history = bus.history ++ [(ev, now, p)])
    ∧ ((∀ h ∈ handlersFor bus ev, ∃ es, h p = Except.ok es) →
        emit now bus ev p =
          ({ bus with history := bus.history ++ [(ev, now, p)] },
           ((handlersFor bus ev).map (okOut p)).flatten, none))
    ∧ (∀ (pre rest : List Handler) (h : Handler) (e : String),
        handlersFor bus ev = pre ++ h :: rest →
        (∀ h' ∈ pre, ∃ es, h' p = Except.ok es) →
        h p = Except.error e →
        (emit now bus ev p).2 = ((pre.map (okOut p)).flatten, some e))
    ∧ (∀ e, (runOrchestrator now nowDay audit0 extra initiative blocker? blockers).result
          = Except.error e →
        audit0 <+: (runOrchestrator now nowDay audit0 extra initiative blocker? blockers).audit
        ∧ (GoodSubs extra →
            ∀ en ∈ (runOrchestrator now nowDay audit0 extra initiative blocker? blockers).audit,
              en ∈ audit0 ∨ en.event ≠ "RUN_COMPLETED")) := by
  refine ⟨rfl, ?_, ?_, ?_⟩
  · intro hall
    show (_, runHandlers (handlersFor bus ev) p) = _
    rw [runHandlers_ok (handlersFor bus ev) p hall]
  · intro pre rest h e hsplit hpre herr
    show runHandlers (handlersFor bus ev) p = _
    rw [hsplit]
    exact runHandlers_err p pre h rest e hpre herr
  · intro e herr
    obtain ⟨T, hT1, hT2⟩ :=
      runOrch_abort_audit now nowDay audit0 extra initiative blocker? blockers e herr
    rw [hT1]
    refine ⟨List.prefix_append audit0 T, fun hg en hen => ?_⟩
    rcases List.mem_append.mp hen with hl | hr
    · exact Or.inl hl
    · exact Or.inr (hT2 hg en hr)

/-- Witness for C7: a concrete run whose extra `PLAN_CREATED` subscriber
raises — the run aborts with that exception, the pre-existing audit entry
survives, and no `RUN_COMPLETED` entry is written. -/
theorem claim_C7_witness :
    (runOrchestrator "t" 0 [⟨"OLD", "t0", AuditData.blockerAdded "x"⟩]
        [("PLAN_CREATED", fun _ => Except.error "boom")] "x" none []).result =
      Except.error "boom"
    ∧ [(⟨"OLD", "t0", AuditData.blockerAdded "x"⟩ : AuditEntry)] <+:
        (runOrchestrator "t" 0 [⟨"OLD", "t0", AuditData.blockerAdded "x"⟩]
          [("PLAN_CREATED", fun _ => Except.error "boom")] "x" none []).audit
    ∧ ∀ en ∈ (runOrchestrator "t" 0 [⟨"OLD", "t0", AuditData.blockerAdded "x"⟩]
          [("PLAN_CREATED", fun _ => Except.error "boom")] "x" none []).audit,
        en ∈ [(⟨"OLD", "t0", AuditData.blockerAdded "x"⟩ : AuditEntry)]
          ∨ en.event ≠ "RUN_COMPLETED" := by
  have hgood : GoodSubs [("PLAN_CREATED", fun _ => Except.error "boom")] := by
    intro s h hmem q es hok en hen
    simp only [List.mem_singleton] at hmem
    rw [show h = _ from congrArg Prod.snd hmem] at hok
    exact Except.noConfusion hok
  have habort := (claim_C7_handler_failure "t"
      ⟨[("PLAN_CREATED", fun _ => Except.error "boom")], []⟩ "PLAN_CREATED"
      (Payload.blockerAdded "x") 0 [⟨"OLD", "t0", AuditData.blockerAdded "x"⟩]
      [("PLAN_CREATED", fun _ => Except.error "boom")] "x" none []).2.2.2
      "boom" rfl
  exact ⟨rfl, habort.1, fun en hen => habort.2 hgood en hen⟩

end PMTeam